import Mathlib

/-!
Shallow embedding of the cooperative task scheduler in
`crates/futures/src/queue.rs`.

The scheduler keeps two FIFO lanes of tasks (a high-priority lane and a
normal lane), a cooperative budget (`coop_budget : u32`), and a pending
flag (`is_spinning`).  A drain cycle (`QueueState::run_all`) first pops and
runs every high-priority task (phase 1), then reads the budget once and
pops and runs normal tasks while the run counter `i` satisfies
`i <= coop_budget` (phase 2); afterwards, if `i > coop_budget` and the
normal lane is still non-empty it requests one slow-path continuation and
leaves the flag alone, otherwise it clears the flag.

Tasks are modelled by opaque identifiers (`Nat`); a behaviour map assigns
to each task identifier the list of scheduler calls its `run()` performs
(reentrant pushes into either lane and `set_coop_budget`), in order.
Machine integers (`u32`) are `Nat` reduced modulo `2 ^ 32` where overflow
matters.  The two drain loops carry explicit fuel; a `none` result means
the fuel ran out before the loop exited on its own.
-/

def U32 : Nat := 2 ^ 32

def U32MAX : Nat := U32 - 1

/-- One scheduler call performed from inside a task's `run()`:
a reentrant `push_high_priority_task`, a reentrant `push_task`, or a
`set_coop_budget`. -/
inductive Effect where
  | pushHigh (id : Nat)
  | pushNorm (id : Nat)
  | setBudget (b : Nat)
deriving DecidableEq

/-- Assigns to each task identifier the scheduler calls its `run()`
performs, in order.  Tasks are opaque to the scheduler; this map stands for
the side effects of `Task::run`. -/
def Behavior : Type := Nat → List Effect

/-- The struct `QueueStateInner`: the two `VecDeque` lanes (head of the list = front of
the deque) and the `u32` cooperative budget. -/
structure QueueStateInner where
  high_priority_tasks : List Nat
  tasks : List Nat
  coop_budget : Nat
deriving DecidableEq

/-- Apply one reentrant scheduler call to the inner queue state.  Pushes
append at the back of the respective lane; `set_coop_budget` overwrites the
budget (a `u32`, hence the reduction mod `2 ^ 32`).  During `run_all` the
`is_spinning` flag is already `true`, so a reentrant push never spawns a
microtask and only the lane contents change. -/
def applyEffect (q : QueueStateInner) : Effect → QueueStateInner
  | .pushHigh t => ⟨q.high_priority_tasks ++ [t], q.tasks, q.coop_budget⟩
  | .pushNorm t => ⟨q.high_priority_tasks, q.tasks ++ [t], q.coop_budget⟩
  | .setBudget b => ⟨q.high_priority_tasks, q.tasks, b % U32⟩

/-- Run a task's list of side effects (`Task::run` as seen by the
scheduler). -/
def runEffects (effs : List Effect) (q : QueueStateInner) : QueueStateInner :=
  effs.foldl applyEffect q

/-- Phase 1 of `run_all` (queue.rs lines 35-41): pop the front of
`high_priority_tasks` and run it, until a pop attempt observes the lane
empty.  Returns the state and the log of task ids run so far; `none` on
fuel exhaustion. -/
def phase1 (beh : Behavior) : Nat → QueueStateInner → List Nat →
    Option (QueueStateInner × List Nat)
  | 0, _, _ => none
  | _ + 1, ⟨[], ts, cb⟩, log => some (⟨[], ts, cb⟩, log)
  | fuel + 1, ⟨t :: hs, ts, cb⟩, log =>
      phase1 beh fuel (runEffects (beh t) ⟨hs, ts, cb⟩) (log ++ [t])

/-- Phase 2 of `run_all` (queue.rs lines 46-58): with the budget already
read into `budget`, loop: break if `i > budget`; pop the front of `tasks`
(break if empty); run it; `i += 1` (`u32` arithmetic, hence mod `2 ^ 32`).
Returns the final counter, state, and accumulated run log.  When the normal
lane is empty, both of the source's exits (the `i > budget` break and the
failed-pop break) return the unchanged state and counter, so the empty-lane
equation covers them jointly. -/
def phase2 (beh : Behavior) : Nat → Nat → Nat → QueueStateInner → List Nat →
    Option (Nat × QueueStateInner × List Nat)
  | 0, _, _, _, _ => none
  | _ + 1, i, _, ⟨hs, [], cb⟩, log => some (i, ⟨hs, [], cb⟩, log)
  | fuel + 1, i, budget, ⟨hs, t :: ts, cb⟩, log =>
      if i > budget then some (i, ⟨hs, t :: ts, cb⟩, log)
      else
        phase2 beh fuel ((i + 1) % U32) budget
          (runEffects (beh t) ⟨hs, ts, cb⟩) (log ++ [t])

/-- The scheduler state seen by `Queue`: the inner queue state plus the
`is_spinning` pending flag. -/
structure SchedState where
  inner : QueueStateInner
  is_spinning : Bool
deriving DecidableEq

/-- Everything observable about one `run_all` invocation: the final inner
state and flag, the ids run in order, the budget value read between the
phases, the final value of the phase-2 counter `i`, and how many slow-path
(`schedule_queue_update`) requests were issued. -/
structure DrainResult where
  inner : QueueStateInner
  is_spinning : Bool
  runLog : List Nat
  budgetRead : Nat
  finalCount : Nat
  slowRequests : Nat
deriving DecidableEq

/-- Model of `QueueState::run_all` (queue.rs lines 28-71): phase 1, a single read of
`coop_budget`, phase 2, then the escalation decision: if `i > coop_budget`
and the normal lane is non-empty, issue one `schedule_queue_update` and
leave `is_spinning` untouched; otherwise set `is_spinning` to `false`. -/
def run_all (beh : Behavior) (fuel : Nat) (s : SchedState) : Option DrainResult :=
  match phase1 beh fuel s.inner [] with
  | none => none
  | some (q1, log1) =>
    let coop_budget := q1.coop_budget
    match phase2 beh fuel 0 coop_budget q1 log1 with
    | none => none
    | some (i, q2, log2) =>
      if i > coop_budget ∧ q2.tasks ≠ [] then
        some ⟨q2, s.is_spinning, log2, coop_budget, i, 1⟩
      else
        some ⟨q2, false, log2, coop_budget, i, 0⟩

/-- Model of `Queue::push_task` (queue.rs lines 96-108): append to the back of the
normal lane, then `is_spinning.replace(true)`; the returned `Bool` is
whether a fast-path microtask was spawned (i.e. the flag was `false`). -/
def push_task (s : SchedState) (t : Nat) : SchedState × Bool :=
  (⟨⟨s.inner.high_priority_tasks, s.inner.tasks ++ [t], s.inner.coop_budget⟩, true⟩,
   !s.is_spinning)

/-- Model of `Queue::push_high_priority_task` (queue.rs lines 80-94): append to the
back of the high-priority lane, then `is_spinning.replace(true)`; the
returned `Bool` is whether a fast-path microtask was spawned. -/
def push_high_priority_task (s : SchedState) (t : Nat) : SchedState × Bool :=
  (⟨⟨s.inner.high_priority_tasks ++ [t], s.inner.tasks, s.inner.coop_budget⟩, true⟩,
   !s.is_spinning)

/-- Model of `Queue::set_coop_budget` (queue.rs lines 118-120). -/
def set_coop_budget (s : SchedState) (b : Nat) : SchedState :=
  ⟨⟨s.inner.high_priority_tasks, s.inner.tasks, b % U32⟩, s.is_spinning⟩

/-- The state built by `Queue::new` (queue.rs lines 124-147): empty lanes,
budget `u32::MAX`, flag `false`. -/
def newQueue : SchedState := ⟨⟨[], [], U32MAX⟩, false⟩

/-- An external enqueue call: `push_high_priority_task` or `push_task`. -/
inductive PushOp where
  | high (id : Nat)
  | norm (id : Nat)
deriving DecidableEq

/-- Perform one enqueue call, returning the new state and whether a
fast-path request was issued. -/
def applyPush (s : SchedState) : PushOp → SchedState × Bool
  | .high t => push_high_priority_task s t
  | .norm t => push_task s t

/-- Perform a sequence of enqueue calls, keeping only the state. -/
def applyPushes (s : SchedState) (ops : List PushOp) : SchedState :=
  ops.foldl (fun s op => (applyPush s op).1) s

/-- The high-priority ids of a sequence of enqueue calls, in order. -/
def highsOf (ops : List PushOp) : List Nat :=
  ops.filterMap fun op => match op with | .high t => some t | .norm _ => none

/-- The normal-lane ids of a sequence of enqueue calls, in order. -/
def normsOf (ops : List PushOp) : List Nat :=
  ops.filterMap fun op => match op with | .high _ => none | .norm t => some t

/-- The behaviour of tasks whose `run()` makes no scheduler calls. -/
def noEffects : Behavior := fun _ => []

/-- The behaviour that runs task 0 as a task whose `run()` enqueues one
high-priority task (id 1) reentrantly. -/
def pushHighBeh : Behavior := fun n => if n = 0 then [Effect.pushHigh 1] else []

/-- The behaviour that runs task 0 as a task whose `run()` enqueues one
normal-lane task (id 1) reentrantly. -/
def pushNormBeh : Behavior := fun n => if n = 0 then [Effect.pushNorm 1] else []

/-- The behaviour that runs task 0 as a task whose `run()` calls
`set_coop_budget 0` reentrantly. -/
def setBudgetBeh : Behavior := fun n => if n = 0 then [Effect.setBudget 0] else []

lemma U32MAX_add_one : U32MAX + 1 = U32 := by decide

lemma U32_pos : 0 < U32 := by decide

lemma runEffects_mem_high (effs : List Effect) :
    ∀ (q : QueueStateInner) (x : Nat), x ∈ q.high_priority_tasks →
      x ∈ (runEffects effs q).high_priority_tasks := by
  induction effs with
  | nil => intro q x h; exact h
  | cons e effs ih =>
    intro q x h
    refine ih (applyEffect q e) x ?_
    cases e with
    | pushHigh t => exact List.mem_append_left _ h
    | pushNorm t => exact h
    | setBudget b => exact h

lemma runEffects_mem_tasks (effs : List Effect) :
    ∀ (q : QueueStateInner) (x : Nat), x ∈ q.tasks →
      x ∈ (runEffects effs q).tasks := by
  induction effs with
  | nil => intro q x h; exact h
  | cons e effs ih =>
    intro q x h
    refine ih (applyEffect q e) x ?_
    cases e with
    | pushHigh t => exact h
    | pushNorm t => exact List.mem_append_left _ h
    | setBudget b => exact h

lemma runEffects_pushHigh_mem (effs : List Effect) :
    ∀ (q : QueueStateInner) (u : Nat), Effect.pushHigh u ∈ effs →
      u ∈ (runEffects effs q).high_priority_tasks := by
  induction effs with
  | nil => intro q u h; simp at h
  | cons e effs ih =>
    intro q u h
    rcases List.mem_cons.mp h with heq | h
    · subst heq
      exact runEffects_mem_high effs _ u (List.mem_append_right _ (by simp))
    · exact ih (applyEffect q e) u h

lemma runEffects_pushNorm_mem (effs : List Effect) :
    ∀ (q : QueueStateInner) (u : Nat), Effect.pushNorm u ∈ effs →
      u ∈ (runEffects effs q).tasks := by
  induction effs with
  | nil => intro q u h; simp at h
  | cons e effs ih =>
    intro q u h
    rcases List.mem_cons.mp h with heq | h
    · subst heq
      exact runEffects_mem_tasks effs _ u (List.mem_append_right _ (by simp))
    · exact ih (applyEffect q e) u h

lemma runEffects_cb (effs : List Effect) :
    ∀ (hs ts : List Nat) (cb cb' : Nat),
      (runEffects effs ⟨hs, ts, cb⟩).high_priority_tasks
          = (runEffects effs ⟨hs, ts, cb'⟩).high_priority_tasks ∧
      (runEffects effs ⟨hs, ts, cb⟩).tasks = (runEffects effs ⟨hs, ts, cb'⟩).tasks := by
  induction effs with
  | nil => intro hs ts cb cb'; exact ⟨rfl, rfl⟩
  | cons e effs ih =>
    intro hs ts cb cb'
    cases e with
    | pushHigh t => exact ih (hs ++ [t]) ts cb cb'
    | pushNorm t => exact ih hs (ts ++ [t]) cb cb'
    | setBudget b => exact ih hs ts (b % U32) (b % U32)

lemma phase1_spec (beh : Behavior) :
    ∀ (fuel : Nat) (q : QueueStateInner) (log : List Nat)
      (q' : QueueStateInner) (log' : List Nat),
      phase1 beh fuel q log = some (q', log') →
      q'.high_priority_tasks = [] ∧
        ∀ x, (x ∈ log ∨ x ∈ q.high_priority_tasks) → x ∈ log' := by
  intro fuel
  induction fuel with
  | zero => intro q log q' log' h; simp [phase1] at h
  | succ f ih =>
    intro q log q' log' h
    obtain ⟨hs, ts, cb⟩ := q
    cases hs with
    | nil =>
      simp only [phase1, Option.some.injEq, Prod.mk.injEq] at h
      obtain ⟨rfl, rfl⟩ := h
      exact ⟨rfl, fun x hx => by rcases hx with hx | hx; exact hx; simp at hx⟩
    | cons t hs =>
      simp only [phase1] at h
      obtain ⟨he, hm⟩ := ih _ _ _ _ h
      refine ⟨he, fun x hx => ?_⟩
      rcases hx with hx | hx
      · exact hm x (Or.inl (List.mem_append_left _ hx))
      · rcases List.mem_cons.mp hx with rfl | hx
        · exact hm x (Or.inl (List.mem_append_right _ (by simp)))
        · exact hm x (Or.inr (runEffects_mem_high (beh t) ⟨hs, ts, cb⟩ x hx))

lemma phase1_reentrant (beh : Behavior) :
    ∀ (fuel : Nat) (q : QueueStateInner) (log : List Nat)
      (q' : QueueStateInner) (log' : List Nat),
      phase1 beh fuel q log = some (q', log') →
      ∀ t, t ∈ q.high_priority_tasks →
      ∀ u, Effect.pushHigh u ∈ beh t → u ∈ log' := by
  intro fuel
  induction fuel with
  | zero => intro q log q' log' h; simp [phase1] at h
  | succ f ih =>
    intro q log q' log' h t ht u hu
    obtain ⟨hs, ts, cb⟩ := q
    cases hs with
    | nil => simp at ht
    | cons t0 hs =>
      simp only [phase1] at h
      rcases List.mem_cons.mp ht with rfl | ht
      · have hmem : u ∈ (runEffects (beh t) ⟨hs, ts, cb⟩).high_priority_tasks :=
          runEffects_pushHigh_mem (beh t) ⟨hs, ts, cb⟩ u hu
        exact (phase1_spec beh f _ _ _ _ h).2 u (Or.inr hmem)
      · exact ih _ _ _ _ h t (runEffects_mem_high (beh t0) ⟨hs, ts, cb⟩ t ht) u hu

lemma phase2_spec (beh : Behavior) :
    ∀ (fuel i budget : Nat) (q : QueueStateInner) (log : List Nat)
      (j : Nat) (q' : QueueStateInner) (log' : List Nat),
      phase2 beh fuel i budget q log = some (j, q', log') → j ≤ budget →
      q'.tasks = [] ∧ ∀ x, (x ∈ log ∨ x ∈ q.tasks) → x ∈ log' := by
  intro fuel
  induction fuel with
  | zero => intro i budget q log j q' log' h; simp [phase2] at h
  | succ f ih =>
    intro i budget q log j q' log' h hj
    obtain ⟨hs, ts, cb⟩ := q
    cases ts with
    | nil =>
      simp only [phase2, Option.some.injEq, Prod.mk.injEq] at h
      obtain ⟨rfl, rfl, rfl⟩ := h
      exact ⟨rfl, fun x hx => by rcases hx with hx | hx; exact hx; simp at hx⟩
    | cons t ts =>
      simp only [phase2] at h
      by_cases hib : i > budget
      · rw [if_pos hib] at h
        simp only [Option.some.injEq, Prod.mk.injEq] at h
        obtain ⟨rfl, -, -⟩ := h
        omega
      · rw [if_neg hib] at h
        obtain ⟨he, hm⟩ := ih _ _ _ _ _ _ _ h hj
        refine ⟨he, fun x hx => ?_⟩
        rcases hx with hx | hx
        · exact hm x (Or.inl (List.mem_append_left _ hx))
        · rcases List.mem_cons.mp hx with rfl | hx
          · exact hm x (Or.inl (List.mem_append_right _ (by simp)))
          · exact hm x (Or.inr (runEffects_mem_tasks (beh t) ⟨hs, ts, cb⟩ x hx))

lemma phase2_reentrant (beh : Behavior) :
    ∀ (fuel i budget : Nat) (q : QueueStateInner) (log : List Nat)
      (j : Nat) (q' : QueueStateInner) (log' : List Nat),
      phase2 beh fuel i budget q log = some (j, q', log') → j ≤ budget →
      ∀ t, t ∈ q.tasks → ∀ u, Effect.pushNorm u ∈ beh t → u ∈ log' := by
  intro fuel
  induction fuel with
  | zero => intro i budget q log j q' log' h; simp [phase2] at h
  | succ f ih =>
    intro i budget q log j q' log' h hj t ht u hu
    obtain ⟨hs, ts, cb⟩ := q
    cases ts with
    | nil => simp at ht
    | cons t0 ts =>
      simp only [phase2] at h
      by_cases hib : i > budget
      · rw [if_pos hib] at h
        simp only [Option.some.injEq, Prod.mk.injEq] at h
        obtain ⟨rfl, -, -⟩ := h
        omega
      · rw [if_neg hib] at h
        rcases List.mem_cons.mp ht with rfl | ht
        · have hmem : u ∈ (runEffects (beh t) ⟨hs, ts, cb⟩).tasks :=
            runEffects_pushNorm_mem (beh t) ⟨hs, ts, cb⟩ u hu
          exact (phase2_spec beh f _ _ _ _ _ _ _ h hj).2 u (Or.inr hmem)
        · exact ih _ _ _ _ _ _ _ h hj t
            (runEffects_mem_tasks (beh t0) ⟨hs, ts, cb⟩ t ht) u hu

lemma phase2_max (beh : Behavior) :
    ∀ (fuel i : Nat) (q : QueueStateInner) (log : List Nat)
      (j : Nat) (q' : QueueStateInner) (log' : List Nat),
      i ≤ U32MAX → phase2 beh fuel i U32MAX q log = some (j, q', log') →
      j ≤ U32MAX ∧ q'.tasks = [] := by
  intro fuel
  induction fuel with
  | zero => intro i q log j q' log' hi h; simp [phase2] at h
  | succ f ih =>
    intro i q log j q' log' hi h
    obtain ⟨hs, ts, cb⟩ := q
    cases ts with
    | nil =>
      simp only [phase2, Option.some.injEq, Prod.mk.injEq] at h
      obtain ⟨rfl, rfl, rfl⟩ := h
      exact ⟨hi, rfl⟩
    | cons t ts =>
      simp only [phase2] at h
      rw [if_neg (by omega)] at h
      refine ih ((i + 1) % U32) _ _ _ _ _ ?_ h
      have h1 := Nat.mod_lt (i + 1) U32_pos
      have h2 := U32MAX_add_one
      omega

lemma runEffects_nil (q : QueueStateInner) : runEffects (noEffects 0) q = q := rfl

lemma phase1_noeffects :
    ∀ (hs : List Nat) (fuel : Nat) (ts : List Nat) (cb : Nat) (log : List Nat),
      hs.length + 1 ≤ fuel →
      phase1 noEffects fuel ⟨hs, ts, cb⟩ log = some (⟨[], ts, cb⟩, log ++ hs) := by
  intro hs
  induction hs with
  | nil =>
    intro fuel ts cb log hf
    obtain ⟨f, rfl⟩ : ∃ f, fuel = f + 1 := ⟨fuel - 1, by omega⟩
    simp [phase1]
  | cons t hs ih =>
    intro fuel ts cb log hf
    obtain ⟨f, rfl⟩ : ∃ f, fuel = f + 1 := ⟨fuel - 1, by omega⟩
    have hf' : hs.length + 1 ≤ f := by simp at hf; omega
    simp only [phase1]
    have hre : runEffects (noEffects t) ⟨hs, ts, cb⟩ = ⟨hs, ts, cb⟩ := rfl
    rw [hre, ih f ts cb (log ++ [t]) hf']
    simp

lemma phase2_noeffects (budget : Nat) (hb : budget < U32MAX) :
    ∀ (ts : List Nat) (fuel i : Nat) (hs : List Nat) (cb : Nat) (log : List Nat),
      i ≤ budget + 1 → ts.length + 1 ≤ fuel →
      phase2 noEffects fuel i budget ⟨hs, ts, cb⟩ log =
        some (min (budget + 1) (i + ts.length),
              ⟨hs, ts.drop (budget + 1 - i), cb⟩,
              log ++ ts.take (budget + 1 - i)) := by
  intro ts
  induction ts with
  | nil =>
    intro fuel i hs cb log hi hf
    obtain ⟨f, rfl⟩ : ∃ f, fuel = f + 1 := ⟨fuel - 1, by omega⟩
    have hmin : min (budget + 1) (i + ([] : List Nat).length) = i := by
      simp; omega
    simp [phase2, hmin]
    omega
  | cons t ts ih =>
    intro fuel i hs cb log hi hf
    obtain ⟨f, rfl⟩ : ∃ f, fuel = f + 1 := ⟨fuel - 1, by omega⟩
    have hf' : ts.length + 1 ≤ f := by simp at hf; omega
    simp only [phase2]
    by_cases hib : i > budget
    · rw [if_pos hib]
      have hieq : i = budget + 1 := by omega
      subst hieq
      have h0 : budget + 1 - (budget + 1) = 0 := by omega
      have hmin : min (budget + 1) (budget + 1 + (t :: ts).length) = budget + 1 := by
        omega
      simp [h0, hmin]
    · rw [if_neg hib]
      have hre : runEffects (noEffects t) ⟨hs, ts, cb⟩ = ⟨hs, ts, cb⟩ := rfl
      have hmod : (i + 1) % U32 = i + 1 := by
        refine Nat.mod_eq_of_lt ?_
        have := U32MAX_add_one
        omega
      rw [hre, hmod, ih f (i + 1) hs cb (log ++ [t]) (by omega) hf']
      have e1 : budget + 1 - i = (budget - i) + 1 := by omega
      have e2 : budget + 1 - (i + 1) = budget - i := by omega
      have e3 : min (budget + 1) (i + 1 + ts.length)
          = min (budget + 1) (i + (t :: ts).length) := by
        simp only [List.length_cons]; omega
      rw [e1, e2, e3]
      simp

lemma phase2_max_noeffects :
    ∀ (ts : List Nat) (fuel i : Nat) (hs : List Nat) (cb : Nat) (log : List Nat),
      i ≤ U32MAX → ts.length + 1 ≤ fuel →
      ∃ j, phase2 noEffects fuel i U32MAX ⟨hs, ts, cb⟩ log =
          some (j, ⟨hs, [], cb⟩, log ++ ts) ∧ j ≤ U32MAX := by
  intro ts
  induction ts with
  | nil =>
    intro fuel i hs cb log hi hf
    obtain ⟨f, rfl⟩ : ∃ f, fuel = f + 1 := ⟨fuel - 1, by omega⟩
    exact ⟨i, by simp [phase2], hi⟩
  | cons t ts ih =>
    intro fuel i hs cb log hi hf
    obtain ⟨f, rfl⟩ : ∃ f, fuel = f + 1 := ⟨fuel - 1, by omega⟩
    have hf' : ts.length + 1 ≤ f := by simp at hf; omega
    have hmod : (i + 1) % U32 ≤ U32MAX := by
      have h1 := Nat.mod_lt (i + 1) U32_pos
      have h2 := U32MAX_add_one
      omega
    obtain ⟨j, hj, hjle⟩ := ih f ((i + 1) % U32) hs cb (log ++ [t]) hmod hf'
    refine ⟨j, ?_, hjle⟩
    simp only [phase2]
    rw [if_neg (by omega)]
    have hre : runEffects (noEffects t) ⟨hs, ts, cb⟩ = ⟨hs, ts, cb⟩ := rfl
    rw [hre, hj]
    simp

lemma phase2_cb (beh : Behavior) :
    ∀ (fuel i budget : Nat) (hs ts : List Nat) (cb cb' : Nat) (log : List Nat),
      Option.map (fun x => (x.1, x.2.1.high_priority_tasks, x.2.1.tasks, x.2.2))
          (phase2 beh fuel i budget ⟨hs, ts, cb⟩ log) =
      Option.map (fun x => (x.1, x.2.1.high_priority_tasks, x.2.1.tasks, x.2.2))
          (phase2 beh fuel i budget ⟨hs, ts, cb'⟩ log) := by
  intro fuel
  induction fuel with
  | zero => intro i budget hs ts cb cb' log; simp [phase2]
  | succ f ih =>
    intro i budget hs ts cb cb' log
    cases ts with
    | nil => simp [phase2]
    | cons t ts =>
      simp only [phase2]
      by_cases hib : i > budget
      · rw [if_pos hib, if_pos hib]
        simp
      · rw [if_neg hib, if_neg hib]
        obtain ⟨h1, h2⟩ := runEffects_cb (beh t) hs ts cb cb'
        cases hqA : runEffects (beh t) ⟨hs, ts, cb⟩ with
        | mk HA TA CA =>
          cases hqB : runEffects (beh t) ⟨hs, ts, cb'⟩ with
          | mk HB TB CB =>
            rw [hqA, hqB] at h1 h2
            simp only at h1 h2
            subst h1
            subst h2
            exact ih ((i + 1) % U32) budget HA TA CA CB (log ++ [t])

lemma applyPushes_inner (ops : List PushOp) :
    ∀ (s : SchedState),
      (applyPushes s ops).inner =
        ⟨s.inner.high_priority_tasks ++ highsOf ops,
         s.inner.tasks ++ normsOf ops,
         s.inner.coop_budget⟩ := by
  induction ops with
  | nil =>
    intro s
    obtain ⟨⟨hs, ts, cb⟩, b⟩ := s
    simp [applyPushes, highsOf, normsOf]
  | cons op ops ih =>
    intro s
    cases op with
    | high t =>
      have step : applyPushes s (PushOp.high t :: ops)
          = applyPushes (applyPush s (PushOp.high t)).1 ops := rfl
      rw [step, ih]
      simp [applyPush, push_high_priority_task, highsOf, normsOf]
    | norm t =>
      have step : applyPushes s (PushOp.norm t :: ops)
          = applyPushes (applyPush s (PushOp.norm t)).1 ops := rfl
      rw [step, ih]
      simp [applyPush, push_task, highsOf, normsOf]

lemma run_all_max (hs ts : List Nat) (b : Bool) (fuel : Nat)
    (h1 : hs.length + 1 ≤ fuel) (h2 : ts.length + 1 ≤ fuel) :
    ∃ j, run_all noEffects fuel ⟨⟨hs, ts, U32MAX⟩, b⟩ =
        some ⟨⟨[], [], U32MAX⟩, false, hs ++ ts, U32MAX, j, 0⟩ ∧ j ≤ U32MAX := by
  obtain ⟨j, hp2, hjle⟩ :=
    phase2_max_noeffects ts fuel 0 [] U32MAX hs (by omega) h2
  refine ⟨j, ?_, hjle⟩
  have hp1 := phase1_noeffects hs fuel ts U32MAX [] h1
  simp only [run_all]
  rw [hp1]
  simp only [List.nil_append] at hp2 ⊢
  rw [hp2]
  have hif : ¬(j > U32MAX ∧ (⟨[], [], U32MAX⟩ : QueueStateInner).tasks ≠ []) := by
    rintro ⟨hgt, -⟩
    omega
  simp [hif]

/-- C3: for every sequence of enqueue operations issued before any drain
cycle runs, a single drain cycle with unbounded budget (the default
`u32::MAX`) runs every high-priority Task before any normal Task and runs
each lane in FIFO insertion order: the run log is exactly the high-priority
ids in insertion order followed by the normal ids in insertion order, both
lanes end empty, no slow-path request is issued, and the pending flag ends
cleared. -/
theorem C3_high_before_normal_fifo (ops : List PushOp) :
    ∃ r, run_all noEffects (ops.length + 1) (applyPushes newQueue ops) = some r ∧
      r.runLog = highsOf ops ++ normsOf ops ∧
      r.inner.high_priority_tasks = [] ∧ r.inner.tasks = [] ∧
      r.slowRequests = 0 ∧ r.is_spinning = false := by
  have hinner := applyPushes_inner ops newQueue
  cases hS : applyPushes newQueue ops with
  | mk inn sp =>
    rw [hS] at hinner
    simp only [newQueue, List.nil_append] at hinner
    have hlen1 : (highsOf ops).length + 1 ≤ ops.length + 1 := by
      have := List.length_filterMap_le
        (fun op => match op with | .high t => some t | .norm _ => none) ops
      simp only [highsOf]
      omega
    have hlen2 : (normsOf ops).length + 1 ≤ ops.length + 1 := by
      have := List.length_filterMap_le
        (fun op => match op with | .high _ => none | .norm t => some t) ops
      simp only [normsOf]
      omega
    obtain ⟨j, hr, hj⟩ :=
      run_all_max (highsOf ops) (normsOf ops) sp (ops.length + 1) hlen1 hlen2
    subst hinner
    exact ⟨_, hr, rfl, rfl, rfl, rfl, rfl⟩

/-- C1 (amended): for every budget `B < u32::MAX` and normal-lane length
`N > B` (high-priority lane empty, no reentrant enqueues), a single drain
invocation runs exactly `B + 1` normal Tasks in FIFO order and leaves
`N - (B + 1)` Tasks queued; it issues exactly one slow-path re-schedule
request when `N > B + 1` (leaving the flag set), and none when
`N = B + 1` (the cycle completes and the flag is cleared). -/
theorem C1_budget_runs_B_plus_one (B : Nat) (ts : List Nat)
    (hb : B < U32MAX) (hN : B < ts.length) :
    ∃ r, run_all noEffects (ts.length + 1) ⟨⟨[], ts, B⟩, true⟩ = some r ∧
      r.runLog = ts.take (B + 1) ∧
      r.inner.tasks = ts.drop (B + 1) ∧
      r.inner.high_priority_tasks = [] ∧
      r.finalCount = B + 1 ∧
      (if B + 1 < ts.length then r.slowRequests = 1 ∧ r.is_spinning = true
       else r.slowRequests = 0 ∧ r.is_spinning = false) := by
  have hp1 := phase1_noeffects [] (ts.length + 1) ts B [] (by simp)
  have hp2 := phase2_noeffects B hb ts (ts.length + 1) 0 [] B []
    (by omega) (by omega)
  have hmin : min (B + 1) (0 + ts.length) = B + 1 := by omega
  rw [hmin] at hp2
  simp only [Nat.sub_zero, List.nil_append, List.append_nil] at hp1 hp2
  by_cases hlt : B + 1 < ts.length
  · have hdrop : ts.drop (B + 1) ≠ [] := by
      intro hnil
      have hlend := List.length_drop (B + 1) ts
      rw [hnil] at hlend
      simp at hlend
      omega
    have hrun : run_all noEffects (ts.length + 1) ⟨⟨[], ts, B⟩, true⟩ =
        some ⟨⟨[], ts.drop (B + 1), B⟩, true, ts.take (B + 1), B, B + 1, 1⟩ := by
      simp only [run_all]
      rw [hp1]
      simp only [hp2]
      have hcond : B + 1 > B ∧ (⟨[], ts.drop (B + 1), B⟩ : QueueStateInner).tasks ≠ [] :=
        ⟨by omega, hdrop⟩
      simp [hcond]
    refine ⟨_, hrun, rfl, rfl, rfl, rfl, ?_⟩
    rw [if_pos hlt]
    exact ⟨rfl, rfl⟩
  · have hlen : ts.length = B + 1 := by omega
    have hdrop : ts.drop (B + 1) = [] := by
      rw [← hlen]
      exact List.drop_length ts
    have hrun : run_all noEffects (ts.length + 1) ⟨⟨[], ts, B⟩, true⟩ =
        some ⟨⟨[], ts.drop (B + 1), B⟩, false, ts.take (B + 1), B, B + 1, 0⟩ := by
      simp only [run_all]
      rw [hp1]
      simp only [hp2]
      have hcond : ¬(B + 1 > B ∧ (⟨[], ts.drop (B + 1), B⟩ : QueueStateInner).tasks ≠ []) := by
        rintro ⟨-, hne⟩
        exact hne hdrop
      simp [hcond]
      omega
    refine ⟨_, hrun, rfl, rfl, rfl, rfl, ?_⟩
    rw [if_neg hlt]
    exact ⟨rfl, rfl⟩

/-- Witness for C1_budget_runs_B_plus_one at `B = 0`, `ts = [1, 2]`. -/
theorem C1_budget_runs_B_plus_one_witness :
    0 < U32MAX ∧ 0 < ([1, 2] : List Nat).length ∧
    ∃ r, run_all noEffects (([1, 2] : List Nat).length + 1) ⟨⟨[], [1, 2], 0⟩, true⟩ = some r ∧
      r.runLog = ([1, 2] : List Nat).take 1 ∧
      r.inner.tasks = ([1, 2] : List Nat).drop 1 ∧
      r.inner.high_priority_tasks = [] ∧
      r.finalCount = 1 ∧
      (if 1 < ([1, 2] : List Nat).length then r.slowRequests = 1 ∧ r.is_spinning = true
       else r.slowRequests = 0 ∧ r.is_spinning = false) :=
  ⟨by decide, by decide, C1_budget_runs_B_plus_one 0 [1, 2] (by decide) (by decide)⟩

/-- C1 counterexample: the claim as stated fails at `B = 0`, `N = 1`
(normal lane `[5]`): the drain runs the single Task, leaves the lane
empty, and issues zero slow-path re-schedule requests, not exactly one. -/
theorem C1_counterexample :
    (run_all noEffects 2 ⟨⟨[], [5], 0⟩, true⟩).map DrainResult.slowRequests = some 0 ∧
    (run_all noEffects 2 ⟨⟨[], [5], 0⟩, true⟩).map DrainResult.slowRequests ≠ some 1 := by
  constructor
  · decide
  · decide

/-- C8: starting from an idle state (pending flag false), two back-to-back
enqueue calls of any mix issue exactly one fast-path schedule request: the
first call requests, the second does not. -/
theorem C8_one_fast_path_request (s : SchedState) (op1 op2 : PushOp)
    (h : s.is_spinning = false) :
    (applyPush s op1).2 = true ∧ (applyPush (applyPush s op1).1 op2).2 = false := by
  cases op1 <;> cases op2 <;>
    simp [applyPush, push_task, push_high_priority_task, h]

/-- Witness for C8_one_fast_path_request on the freshly constructed queue
with one normal and one high-priority push. -/
theorem C8_one_fast_path_request_witness :
    newQueue.is_spinning = false ∧
    (applyPush newQueue (PushOp.norm 1)).2 = true ∧
    (applyPush (applyPush newQueue (PushOp.norm 1)).1 (PushOp.high 2)).2 = false :=
  ⟨rfl, C8_one_fast_path_request newQueue (PushOp.norm 1) (PushOp.high 2) rfl⟩

/-- C9: each enqueue appends exactly one Task at the back of its own lane
and leaves the other lane and the budget unchanged; both pushes leave the
pending flag `true` afterwards, so neither ever moves it from true to
false. -/
theorem C9_push_frame (s : SchedState) (t : Nat) :
    (push_task s t).1.inner.tasks = s.inner.tasks ++ [t] ∧
    (push_task s t).1.inner.high_priority_tasks = s.inner.high_priority_tasks ∧
    (push_task s t).1.inner.coop_budget = s.inner.coop_budget ∧
    (push_task s t).1.is_spinning = true ∧
    (push_high_priority_task s t).1.inner.high_priority_tasks
        = s.inner.high_priority_tasks ++ [t] ∧
    (push_high_priority_task s t).1.inner.tasks = s.inner.tasks ∧
    (push_high_priority_task s t).1.inner.coop_budget = s.inner.coop_budget ∧
    (push_high_priority_task s t).1.is_spinning = true :=
  ⟨rfl, rfl, rfl, rfl, rfl, rfl, rfl, rfl⟩

/-- C2 is violated by the code: starting the scheduled drain with the
normal lane `[0]`, budget 5, where Task 0's `run()` enqueues the
high-priority Task 1, the cycle completes within budget, clears the
pending flag, issues no schedule request, and leaves Task 1 queued in the
high-priority lane without ever running it — a reachable state with a
queued Task, the flag false, and no drain invocation scheduled. -/
theorem C2_lost_wakeup_eval :
    run_all pushHighBeh 3 ⟨⟨[], [0], 5⟩, true⟩ =
      some ⟨⟨[1], [], 5⟩, false, [0], 5, 1, 0⟩ ∧ (1 : Nat) ∉ [0] := by
  constructor
  · decide
  · decide

/-- C5: if a Task run during phase 1 enqueues a new high-priority Task,
that Task is popped and run within the same drain cycle before phase 1
ends, and phase 1 ends only when a pop attempt observes the high-priority
lane empty. -/
theorem C5_phase1_reentrant_same_cycle (beh : Behavior) (fuel : Nat)
    (q q' : QueueStateInner) (log log' : List Nat) (t u : Nat)
    (ht : t ∈ q.high_priority_tasks) (hu : Effect.pushHigh u ∈ beh t)
    (h : phase1 beh fuel q log = some (q', log')) :
    u ∈ log' ∧ q'.high_priority_tasks = [] :=
  ⟨phase1_reentrant beh fuel q log q' log' h t ht u hu,
   (phase1_spec beh fuel q log q' log' h).1⟩

/-- Witness for C5_phase1_reentrant_same_cycle: Task 0 pushes
high-priority Task 1 during phase 1; Task 1 runs in the same phase. -/
theorem C5_phase1_reentrant_same_cycle_witness :
    (0 : Nat) ∈ (⟨[0], [], 5⟩ : QueueStateInner).high_priority_tasks ∧
    Effect.pushHigh 1 ∈ pushHighBeh 0 ∧
    phase1 pushHighBeh 3 ⟨[0], [], 5⟩ [] = some (⟨[], [], 5⟩, [0, 1]) ∧
    (1 : Nat) ∈ [0, 1] ∧
    (⟨[], [], 5⟩ : QueueStateInner).high_priority_tasks = [] := by
  have hthm := C5_phase1_reentrant_same_cycle pushHighBeh 3 ⟨[0], [], 5⟩
    ⟨[], [], 5⟩ [] [0, 1] 0 1 (by decide) (by decide) (by decide)
  exact ⟨by decide, by decide, by decide, hthm.1, hthm.2⟩

/-- C6: if a Task run during phase 2 enqueues a new normal-lane Task, that
Task is eligible for the current cycle's remaining budget: whenever the
phase-2 loop finishes with its counter within budget (so the loop ended by
observing the lane empty), the reentrantly enqueued Task has been run in
this same cycle. -/
theorem C6_phase2_reentrant_same_cycle (beh : Behavior) (fuel i budget : Nat)
    (q q' : QueueStateInner) (log log' : List Nat) (j t u : Nat)
    (ht : t ∈ q.tasks) (hu : Effect.pushNorm u ∈ beh t)
    (h : phase2 beh fuel i budget q log = some (j, q', log'))
    (hj : j ≤ budget) :
    u ∈ log' ∧ q'.tasks = [] :=
  ⟨phase2_reentrant beh fuel i budget q log j q' log' h hj t ht u hu,
   (phase2_spec beh fuel i budget q log j q' log' h hj).1⟩

/-- Witness for C6_phase2_reentrant_same_cycle: Task 0 pushes normal
Task 1 during phase 2 with budget 5; Task 1 runs in the same cycle. -/
theorem C6_phase2_reentrant_same_cycle_witness :
    (0 : Nat) ∈ (⟨[], [0], 5⟩ : QueueStateInner).tasks ∧
    Effect.pushNorm 1 ∈ pushNormBeh 0 ∧
    phase2 pushNormBeh 3 0 5 ⟨[], [0], 5⟩ [] = some (2, ⟨[], [], 5⟩, [0, 1]) ∧
    2 ≤ 5 ∧
    (1 : Nat) ∈ [0, 1] ∧ (⟨[], [], 5⟩ : QueueStateInner).tasks = [] := by
  have hthm := C6_phase2_reentrant_same_cycle pushNormBeh 3 0 5 ⟨[], [0], 5⟩
    ⟨[], [], 5⟩ [] [0, 1] 2 0 1 (by decide) (by decide) (by decide) (by decide)
  exact ⟨by decide, by decide, by decide, by decide, hthm.1, hthm.2⟩

/-- C10: when the budget a cycle reads equals `u32::MAX` (the default
initial value), the escalation branch is unreachable: the `u32` run
counter never exceeds the budget, the drain issues no slow-path request,
phase 2 ends only with the normal lane empty, and the pending flag is
cleared. -/
theorem C10_max_budget_no_escalation (beh : Behavior) (fuel : Nat)
    (s : SchedState) (r : DrainResult)
    (h : run_all beh fuel s = some r) (hmax : r.budgetRead = U32MAX) :
    r.slowRequests = 0 ∧ r.inner.tasks = [] ∧ r.is_spinning = false ∧
    r.finalCount ≤ U32MAX := by
  cases h1 : phase1 beh fuel s.inner [] with
  | none => simp [run_all, h1] at h
  | some p =>
    obtain ⟨q1, log1⟩ := p
    simp only [run_all, h1] at h
    cases h2 : phase2 beh fuel 0 q1.coop_budget q1 log1 with
    | none => simp [h2] at h
    | some p2 =>
      obtain ⟨j, q2, log2⟩ := p2
      simp only [h2] at h
      by_cases hc : j > q1.coop_budget ∧ q2.tasks ≠ []
      · rw [if_pos hc] at h
        obtain rfl := Option.some.inj h
        have hcb : q1.coop_budget = U32MAX := hmax
        rw [hcb] at h2
        obtain ⟨hj, -⟩ :=
          phase2_max beh fuel 0 q1 log1 j q2 log2 (Nat.zero_le _) h2
        obtain ⟨hgt, -⟩ := hc
        rw [hcb] at hgt
        omega
      · rw [if_neg hc] at h
        obtain rfl := Option.some.inj h
        have hcb : q1.coop_budget = U32MAX := hmax
        rw [hcb] at h2
        obtain ⟨hj, hempty⟩ :=
          phase2_max beh fuel 0 q1 log1 j q2 log2 (Nat.zero_le _) h2
        exact ⟨rfl, hempty, rfl, hj⟩

/-- Witness for C10_max_budget_no_escalation with two non-reentrant
normal Tasks under the default budget. -/
theorem C10_max_budget_no_escalation_witness :
    DrainResult.slowRequests ⟨⟨[], [], U32MAX⟩, false, [1, 2], U32MAX, 2, 0⟩ = 0 ∧
    QueueStateInner.tasks ⟨[], [], U32MAX⟩ = [] ∧
    DrainResult.is_spinning ⟨⟨[], [], U32MAX⟩, false, [1, 2], U32MAX, 2, 0⟩ = false := by
  have hthm := C10_max_budget_no_escalation noEffects 3 ⟨⟨[], [1, 2], U32MAX⟩, true⟩
    ⟨⟨[], [], U32MAX⟩, false, [1, 2], U32MAX, 2, 0⟩ (by decide) rfl
  exact ⟨hthm.1, hthm.2.1, hthm.2.2.1⟩

/-- C4: the pending flag moves false to true only on an enqueue that finds
it false, which then issues the single fast-path request; enqueues always
leave it true and `set_coop_budget` never touches it; at the end of every
drain cycle the flag is cleared exactly when it is not the case that the
run count exceeded the read budget with the normal lane still non-empty,
and in that exceeded case exactly one slow-path request is issued with the
flag left set, while otherwise no request is issued. -/
theorem C4_pending_flag_protocol :
    (∀ (s : SchedState) (t : Nat),
        ((push_task s t).2 = true ↔ s.is_spinning = false) ∧
        (push_task s t).1.is_spinning = true) ∧
    (∀ (s : SchedState) (t : Nat),
        ((push_high_priority_task s t).2 = true ↔ s.is_spinning = false) ∧
        (push_high_priority_task s t).1.is_spinning = true) ∧
    (∀ (s : SchedState) (b : Nat),
        (set_coop_budget s b).is_spinning = s.is_spinning) ∧
    (∀ (beh : Behavior) (fuel : Nat) (s : SchedState) (r : DrainResult),
        run_all beh fuel s = some r → s.is_spinning = true →
        ((r.is_spinning = false ↔
            ¬(r.budgetRead < r.finalCount ∧ r.inner.tasks ≠ [])) ∧
         (r.budgetRead < r.finalCount ∧ r.inner.tasks ≠ [] →
            r.slowRequests = 1 ∧ r.is_spinning = true) ∧
         (¬(r.budgetRead < r.finalCount ∧ r.inner.tasks ≠ []) →
            r.slowRequests = 0 ∧ r.is_spinning = false))) := by
  refine ⟨?_, ?_, ?_, ?_⟩
  · intro s t
    exact ⟨by simp [push_task], rfl⟩
  · intro s t
    exact ⟨by simp [push_high_priority_task], rfl⟩
  · intro s b
    rfl
  · intro beh fuel s r h hsp
    cases h1 : phase1 beh fuel s.inner [] with
    | none => simp [run_all, h1] at h
    | some p =>
      obtain ⟨q1, log1⟩ := p
      simp only [run_all, h1] at h
      cases h2 : phase2 beh fuel 0 q1.coop_budget q1 log1 with
      | none => simp [h2] at h
      | some p2 =>
        obtain ⟨j, q2, log2⟩ := p2
        simp only [h2] at h
        by_cases hc : j > q1.coop_budget ∧ q2.tasks ≠ []
        · rw [if_pos hc] at h
          obtain rfl := Option.some.inj h
          refine ⟨?_, fun _ => ⟨rfl, hsp⟩, fun hnc => absurd hc hnc⟩
          constructor
          · intro hfalse
            rw [hsp] at hfalse
            exact absurd hfalse (by simp)
          · intro hnc
            exact absurd hc hnc
        · rw [if_neg hc] at h
          obtain rfl := Option.some.inj h
          exact ⟨⟨fun _ => hc, fun _ => rfl⟩,
                 fun hcond => absurd hcond hc, fun _ => ⟨rfl, rfl⟩⟩

/-- Witness for C4_pending_flag_protocol: a fast-path request from the
idle queue, a budget set, and a completed within-budget drain. -/
theorem C4_pending_flag_protocol_witness :
    (push_task newQueue 7).2 = true ∧
    (push_high_priority_task newQueue 8).2 = true ∧
    (set_coop_budget newQueue 3).is_spinning = newQueue.is_spinning ∧
    (DrainResult.slowRequests ⟨⟨[], [], 3⟩, false, [1], 3, 1, 0⟩ = 0 ∧
     DrainResult.is_spinning ⟨⟨[], [], 3⟩, false, [1], 3, 1, 0⟩ = false) := by
  refine ⟨?_, ?_, ?_, ?_⟩
  · exact (C4_pending_flag_protocol.1 newQueue 7).1.mpr rfl
  · exact (C4_pending_flag_protocol.2.1 newQueue 8).1.mpr rfl
  · exact C4_pending_flag_protocol.2.2.1 newQueue 3
  · exact (C4_pending_flag_protocol.2.2.2 noEffects 2 ⟨⟨[], [1], 3⟩, true⟩
      ⟨⟨[], [], 3⟩, false, [1], 3, 1, 0⟩ (by decide) rfl).2.2 (by decide)

/-- C7 counterexample: the claim as stated fails on the concrete cycle
with high-priority lane `[0]` (Task 0 calls `set_coop_budget 0`), normal
lane `[1, 2, 3]` and budget 10 at the start of the cycle: the cycle reads
budget 0 (not the 10 in force at its start) and stops after one normal
Task, leaving `[2, 3]`, whereas the same cycle without the `set_coop_budget`
call drains the lane completely — a `set_coop_budget` from a phase-1 Task
does change the current cycle's phase-2 stopping point. -/
theorem C7_counterexample :
    (run_all setBudgetBeh 5 ⟨⟨[0], [1, 2, 3], 10⟩, true⟩).map
        (fun r => (r.budgetRead, r.inner.tasks)) = some (0, [2, 3]) ∧
    (run_all noEffects 5 ⟨⟨[0], [1, 2, 3], 10⟩, true⟩).map
        (fun r => (r.budgetRead, r.inner.tasks)) = some (10, []) := by
  constructor
  · decide
  · decide

/-- C7 (amended): each drain cycle reads the budget exactly once, after
phase 1 and before phase 2, so a `set_coop_budget` from a Task run during
phase 1 is observed by the current cycle's read; a `set_coop_budget` made
after that read (during phase 2) does not change the current cycle's
phase-2 stopping point or run order, since phase 2's outcome apart from
the stored budget field is independent of that field. -/
theorem C7_budget_read_between_phases (beh : Behavior) (fuel : Nat)
    (s : SchedState) (q1 : QueueStateInner) (log1 : List Nat) (r : DrainResult)
    (h1 : phase1 beh fuel s.inner [] = some (q1, log1))
    (h : run_all beh fuel s = some r) :
    r.budgetRead = q1.coop_budget ∧
    (∀ (fuel2 i budget : Nat) (hs ts : List Nat) (cb cb' : Nat) (log : List Nat),
      Option.map (fun x => (x.1, x.2.1.high_priority_tasks, x.2.1.tasks, x.2.2))
          (phase2 beh fuel2 i budget ⟨hs, ts, cb⟩ log) =
      Option.map (fun x => (x.1, x.2.1.high_priority_tasks, x.2.1.tasks, x.2.2))
          (phase2 beh fuel2 i budget ⟨hs, ts, cb'⟩ log)) := by
  refine ⟨?_, fun fuel2 i budget hs ts cb cb' log =>
    phase2_cb beh fuel2 i budget hs ts cb cb' log⟩
  simp only [run_all, h1] at h
  cases h2 : phase2 beh fuel 0 q1.coop_budget q1 log1 with
  | none => simp [h2] at h
  | some p2 =>
    obtain ⟨j, q2, log2⟩ := p2
    simp only [h2] at h
    by_cases hc : j > q1.coop_budget ∧ q2.tasks ≠ []
    · rw [if_pos hc] at h
      obtain rfl := Option.some.inj h
      rfl
    · rw [if_neg hc] at h
      obtain rfl := Option.some.inj h
      rfl

/-- Witness for C7_budget_read_between_phases on a trivial drain with
budget 7, plus the phase-2 budget-field independence at two field
values. -/
theorem C7_budget_read_between_phases_witness :
    DrainResult.budgetRead ⟨⟨[], [], 7⟩, false, [], 7, 0, 0⟩ = 7 ∧
    Option.map (fun x => (x.1, x.2.1.high_priority_tasks, x.2.1.tasks, x.2.2))
        (phase2 noEffects 1 0 5 ⟨[], [], 3⟩ []) =
      Option.map (fun x => (x.1, x.2.1.high_priority_tasks, x.2.1.tasks, x.2.2))
        (phase2 noEffects 1 0 5 ⟨[], [], 9⟩ []) := by
  have hthm := C7_budget_read_between_phases noEffects 1 ⟨⟨[], [], 7⟩, true⟩
    ⟨[], [], 7⟩ [] ⟨⟨[], [], 7⟩, false, [], 7, 0, 0⟩ (by decide) (by decide)
  exact ⟨hthm.1, hthm.2 1 0 5 [] [] 3 9 []⟩
